import Mathlib

/-!
# Verification of zbus-lockstep

A shallow embedding of the core of the `zbus-lockstep` repository:

* the signature extractors of `zbus-lockstep/src/lib.rs`
  (`get_signal_body_type`, `get_property_type`, `get_method_return_type`,
  `get_method_args_type`), modelled over an already-parsed XML `Node`
  (XML parsing itself is delegated to the external `zbus::xml` library
  and is out of scope);
* the declaration resolver at the heart of the `validate` attribute macro
  of `zbus-lockstep-macros/src/lib.rs`, modelled over an ordered list of
  `(path, Node)` pairs (one possible iteration order of the `HashMap`
  the macro iterates);
* the signature equivalence checker `signatures_are_eq`, whose source file
  (`zbus-lockstep/src/marshall.rs`) is declared via `pub mod marshall`
  but is not present in the sources; it is modelled from the spec.
-/

namespace ZbusLockstep

/-! ## Data model: parsed XML interface description (zbus::xml `Node` tree) -/

/-- An `<arg>` element: optional name, a type-signature string, and an
optional direction attribute (methods use `in`/`out`; signals none). -/
structure Arg where
  name : Option String
  ty : String
  direction : Option String
deriving DecidableEq, Repr

/-- A `<signal>` element: a name and its ordered args. -/
structure Signal where
  name : String
  args : List Arg
deriving DecidableEq, Repr

/-- A `<method>` element: a name and its ordered args. -/
structure Method where
  name : String
  args : List Arg
deriving DecidableEq, Repr

/-- A `<property>` element: a name and a single type-signature string
(access mode is unused by the core and omitted). -/
structure Property where
  name : String
  ty : String
deriving DecidableEq, Repr

/-- An `<interface>` element with its ordered member declarations. -/
structure Interface where
  name : String
  signals : List Signal
  methods : List Method
  properties : List Property
deriving DecidableEq, Repr

/-- A parsed description document (`<node>` root element). -/
structure Node where
  interfaces : List Interface
deriving DecidableEq, Repr

/-- Errors of the extractor functions: `zbus::Error::InterfaceNotFound`
and `zbus::Error::MissingParameter(msg)`. -/
inductive ExtractError where
  | InterfaceNotFound
  | MissingParameter (msg : String)
deriving DecidableEq, Repr

/-! ## Signature extractors (`zbus-lockstep/src/lib.rs`) -/

/-- `get_signal_body_type` (lib.rs:84-117): find the interface by name,
find the signal by member name, then either the named arg's type or the
concatenation of all arg types in declared order. -/
def get_signal_body_type (node : Node) (interface_name member_name : String)
    (arg : Option String) : Except ExtractError String :=
  match node.interfaces.find? (fun iface => iface.name == interface_name) with
  | none => .error .InterfaceNotFound
  | some interface =>
    match interface.signals.find? (fun signal => signal.name == member_name) with
    | none => .error (.MissingParameter "no signal matching supplied member")
    | some signal =>
      match arg with
      | some arg_name =>
        match signal.args.find? (fun a => a.name == some arg_name) with
        | none => .error (.MissingParameter "no matching argument found")
        | some a => .ok a.ty
      | none => .ok (String.join (signal.args.map (fun a => a.ty)))

/-- `get_property_type` (lib.rs:151-172): find the interface by name, find
the property by name, return its single type string. -/
def get_property_type (node : Node) (interface_name property_name : String) :
    Except ExtractError String :=
  match node.interfaces.find? (fun iface => iface.name == interface_name) with
  | none => .error .InterfaceNotFound
  | some interface =>
    match interface.properties.find? (fun property => property.name == property_name) with
    | none => .error (.MissingParameter "no property matching supplied member")
    | some property => .ok property.ty

/-- `get_method_return_type` (lib.rs:218-254): find interface and method;
with an arg name, that arg's type regardless of direction; otherwise the
concatenation of the types of args whose direction is `out`. -/
def get_method_return_type (node : Node) (interface_name member_name : String)
    (arg_name : Option String) : Except ExtractError String :=
  match node.interfaces.find? (fun iface => iface.name == interface_name) with
  | none => .error .InterfaceNotFound
  | some interface =>
    match interface.methods.find? (fun method => method.name == member_name) with
    | none => .error (.MissingParameter "no method matches supplied member")
    | some method =>
      match arg_name with
      | some an =>
        match method.args.find? (fun a => a.name == some an) with
        | none => .error (.MissingParameter "no matching argument found")
        | some a => .ok a.ty
      | none =>
        .ok (String.join ((method.args.filter (fun a => a.direction == some "out")).map
          (fun a => a.ty)))

/-- `get_method_args_type` (lib.rs:316-352): as `get_method_return_type`
but concatenating the args whose direction is `in`. -/
def get_method_args_type (node : Node) (interface_name member_name : String)
    (arg_name : Option String) : Except ExtractError String :=
  match node.interfaces.find? (fun iface => iface.name == interface_name) with
  | none => .error .InterfaceNotFound
  | some interface =>
    match interface.methods.find? (fun method => method.name == member_name) with
    | none => .error (.MissingParameter "no method matches supplied member")
    | some method =>
      match arg_name with
      | some an =>
        match method.args.find? (fun a => a.name == some an) with
        | none => .error (.MissingParameter "no matching argument found")
        | some a => .ok a.ty
      | none =>
        .ok (String.join ((method.args.filter (fun a => a.direction == some "in")).map
          (fun a => a.ty)))

/-! ## Declaration resolver (`zbus-lockstep-macros/src/lib.rs`, `validate`) -/

/-- Substring containment on char lists: `needle` occurs contiguously in
`hay` (Rust `str::contains` with a string pattern). -/
def listContains (hay needle : List Char) : Bool :=
  needle.isPrefixOf hay ||
    match hay with
    | [] => false
    | _ :: t => listContains t needle

/-- Rust `item_name.contains(signal_name)`. -/
def strContains (hay needle : String) : Bool :=
  listContains hay.data needle.data

/-- The optional `interface:` and `signal:` arguments of `#[validate]`
(`ValidateArgs`, macros lib.rs:278-287; the `xml:` path argument is
filesystem glue, out of scope). -/
structure ValidateArgs where
  interface : Option String
  signal : Option String
deriving DecidableEq, Repr

/-- The data the search loop records for its match: interface name, signal
name and source document path (macros lib.rs:172-174, 196-198, 212-214). -/
structure SignalMatch where
  interface_name : String
  signal_name : String
  xml_file_path : String
deriving DecidableEq, Repr

/-- The two resolution errors of the search loop: the ambiguity error
(macros lib.rs:205-210) and the not-found error carrying the search key
`args.signal.unwrap_or(item_name)` (macros lib.rs:223-233). -/
inductive ResolveError where
  | Ambiguous
  | NotFound (key : String)
deriving DecidableEq, Repr

/-- An interface is retained iff it is not skipped by macros lib.rs:184:
skip when an `interface:` hint is present and the name differs. -/
def admissible (args : ValidateArgs) (iface : Interface) : Bool :=
  match args.interface with
  | some hint => iface.name == hint
  | none => true

/-- The inner signal loop (macros lib.rs:188-216).  With a `signal:` hint,
a signal matching the hint overwrites the current match and the loop
continues; without a hint, a signal whose name is a substring of the
struct's name is an error if a match already exists, else becomes the
match. -/
def foldSignals (args : ValidateArgs) (item_name iface_name path : String) :
    Option SignalMatch → List Signal → Except ResolveError (Option SignalMatch)
  | st, [] => .ok st
  | st, s :: rest =>
    match args.signal with
    | some hint =>
      if s.name == hint then
        foldSignals args item_name iface_name path (some ⟨iface_name, s.name, path⟩) rest
      else
        foldSignals args item_name iface_name path st rest
    | none =>
      if strContains item_name s.name then
        match st with
        | some _ => .error .Ambiguous
        | none =>
          foldSignals args item_name iface_name path (some ⟨iface_name, s.name, path⟩) rest
      else
        foldSignals args item_name iface_name path st rest

/-- The interface loop (macros lib.rs:181-217): skip non-admissible
interfaces, scan the signals of the rest. -/
def foldInterfaces (args : ValidateArgs) (item_name path : String) :
    Option SignalMatch → List Interface → Except ResolveError (Option SignalMatch)
  | st, [] => .ok st
  | st, iface :: rest =>
    if admissible args iface then
      match foldSignals args item_name iface.name path st iface.signals with
      | .error e => .error e
      | .ok st2 => foldInterfaces args item_name path st2 rest
    else
      foldInterfaces args item_name path st rest

/-- The document loop (macros lib.rs:178-218).  The Rust code iterates a
`HashMap<PathBuf, String>`; this model takes the documents as an ordered
list, i.e. one possible iteration order of that map. -/
def foldDocs (args : ValidateArgs) (item_name : String) :
    Option SignalMatch → List (String × Node) → Except ResolveError (Option SignalMatch)
  | st, [] => .ok st
  | st, (path, node) :: rest =>
    match foldInterfaces args item_name path st node.interfaces with
    | .error e => .error e
    | .ok st2 => foldDocs args item_name st2 rest

/-- The resolution core of the `validate` macro (macros lib.rs:176-239):
run the search loop over all documents; a surviving match is the result,
no match is the not-found error naming `args.signal.unwrap_or(item_name)`. -/
def validate (args : ValidateArgs) (item_name : String)
    (docs : List (String × Node)) : Except ResolveError SignalMatch :=
  match foldDocs args item_name none docs with
  | .error e => .error e
  | .ok (some m) => .ok m
  | .ok none => .error (.NotFound (args.signal.getD item_name))

/-! ### Candidate-list characterization of the resolver -/

/-- The no-hint candidates contributed by one signal list: signals whose
name is a substring of the struct's name, in declaration order. -/
def sigMatches (item_name iface_name path : String) (sigs : List Signal) :
    List SignalMatch :=
  (sigs.filter (fun s => strContains item_name s.name)).map
    (fun s => ⟨iface_name, s.name, path⟩)

/-- The no-hint candidates contributed by one document: admissible
interfaces in order, each contributing its substring matches. -/
def docMatches (args : ValidateArgs) (item_name : String) (d : String × Node) :
    List SignalMatch :=
  (d.2.interfaces.filter (admissible args)).flatMap
    (fun iface => sigMatches item_name iface.name d.1 iface.signals)

/-- All no-hint candidates, in iteration order. -/
def allMatches (args : ValidateArgs) (item_name : String)
    (docs : List (String × Node)) : List SignalMatch :=
  docs.flatMap (docMatches args item_name)

/-- The hint-driven candidates contributed by one signal list: signals
whose name equals the hint. -/
def sigHintMatches (hint iface_name path : String) (sigs : List Signal) :
    List SignalMatch :=
  (sigs.filter (fun s => s.name == hint)).map (fun s => ⟨iface_name, s.name, path⟩)

/-- The hint-driven candidates contributed by one document. -/
def docHintMatches (args : ValidateArgs) (hint : String) (d : String × Node) :
    List SignalMatch :=
  (d.2.interfaces.filter (admissible args)).flatMap
    (fun iface => sigHintMatches hint iface.name d.1 iface.signals)

/-- All hint-driven candidates, in iteration order. -/
def allHintMatches (args : ValidateArgs) (hint : String)
    (docs : List (String × Node)) : List SignalMatch :=
  docs.flatMap (docHintMatches args hint)

/-- Reference scan of a no-hint candidate list: a second candidate on top
of an existing match is the ambiguity error. -/
def scanCands : Option SignalMatch → List SignalMatch →
    Except ResolveError (Option SignalMatch)
  | st, [] => .ok st
  | st, c :: rest =>
    match st with
    | some _ => .error .Ambiguous
    | none => scanCands (some c) rest

/-- Reference scan of a hint-driven candidate list: each candidate
overwrites the match, the last one wins. -/
def overwrite (st : Option SignalMatch) (l : List SignalMatch) : Option SignalMatch :=
  l.foldl (fun _ c => some c) st

/-! ## Signature equivalence checker (`marshall::signatures_are_eq`)

`zbus-lockstep/src/lib.rs` declares `pub mod marshall` and re-exports
`marshall::signatures_are_eq`, but `src/marshall.rs` is not among the
available sources, so the checker is modelled from the spec. -/

/-- Modelled from the spec: the single-character primitive type codes of
the signature grammar (the variant marker `v` is a one-character token). -/
def isPrimitiveCode (c : Char) : Bool :=
  c == 'y' || c == 'b' || c == 'n' || c == 'q' || c == 'i' || c == 'u' ||
  c == 'x' || c == 't' || c == 'd' || c == 's' || c == 'o' || c == 'g' ||
  c == 'h' || c == 'v'

/-- Modelled from the spec: consume characters up to and including the
bracket that returns the nesting depth to zero, counting the grammar's
bracket pairs `(` `)` and `{` `}`; contents stay opaque. -/
def readGroup : Nat → List Char → Option (List Char × List Char)
  | _, [] => none
  | d, c :: rest =>
    if (c == ')' || c == '}') && d == 1 then
      some ([c], rest)
    else
      let d2 := if c == '(' || c == '{' then d + 1
        else if c == ')' || c == '}' then d - 1
        else d
      match readGroup d2 rest with
      | none => none
      | some (tok, rem) => some (c :: tok, rem)

/-- Modelled from the spec: read one top-level term as an indivisible
token — an array prefix `a` followed by its element, a depth-balanced
struct `(...)` or dict-entry `{...}` group, or a primitive code. -/
def readToken : List Char → Option (List Char × List Char)
  | [] => none
  | 'a' :: rest =>
    match readToken rest with
    | none => none
    | some (tok, rem) => some ('a' :: tok, rem)
  | '(' :: rest =>
    match readGroup 1 rest with
    | none => none
    | some (tok, rem) => some ('(' :: tok, rem)
  | '{' :: rest =>
    match readGroup 1 rest with
    | none => none
    | some (tok, rem) => some ('{' :: tok, rem)
  | c :: rest => if isPrimitiveCode c then some ([c], rest) else none

/-- Modelled from the spec: tokenize a whole signature into its flat
top-level term sequence by repeated single-token reads (fuelled by the
input length; every read consumes at least one character). -/
def tokenizeAux : Nat → List Char → Option (List String)
  | _, [] => some []
  | 0, _ :: _ => none
  | fuel + 1, c :: rest =>
    match readToken (c :: rest) with
    | none => none
    | some (tok, rem) =>
      match tokenizeAux fuel rem with
      | none => none
      | some toks => some (String.mk tok :: toks)

/-- Modelled from the spec: the top-level token sequence of a signature
string, or `none` when the string is not depth-balanced tokenizable. -/
def tokenize (s : String) : Option (List String) :=
  tokenizeAux s.data.length s.data

/-- Modelled from the spec: when a token sequence is exactly one struct
token `(...)`, the text between its outermost parentheses. -/
def unwrapStruct (ts : List String) : Option String :=
  match ts with
  | [t] =>
    match t.data with
    | '(' :: rest =>
      match rest.getLast? with
      | some ')' => some (String.mk rest.dropLast)
      | _ => none
    | _ => none
  | _ => none

/-- Modelled from the spec: `x` is exactly one struct token whose content
tokenizes to the token sequence `y`. -/
def wrapEquals (x y : List String) : Bool :=
  match unwrapStruct x with
  | some inner =>
    match tokenize inner with
    | some ti => ti == y
    | none => false
  | none => false

/-- Modelled from the spec: `signatures_are_eq` of the missing
`zbus-lockstep/src/marshall.rs` — equal strings are equivalent; otherwise
both operands are tokenized into their top-level term sequences and the
operands are equivalent iff one is a single struct token wrapping the
other's whole sequence, or the two sequences are equal token for token. -/
def signatures_are_eq (a b : String) : Bool :=
  if a == b then
    true
  else
    match tokenize a, tokenize b with
    | some ta, some tb => wrapEquals ta tb || wrapEquals tb ta || ta == tb
    | _, _ => false

/-! ## Characterization lemmas for the resolver -/

theorem overwrite_eq_getLast? (st : Option SignalMatch) (l : List SignalMatch) :
    overwrite st l = match l.getLast? with | some c => some c | none => st := by
  induction l generalizing st with
  | nil => rfl
  | cons c t ih =>
    cases t with
    | nil => rfl
    | cons d u =>
      rw [List.getLast?_cons_cons]
      have h1 : overwrite st (c :: d :: u) = overwrite (some c) (d :: u) := rfl
      rw [h1, ih]
      rcases hlast : (d :: u).getLast? with _ | e
      · exact absurd (List.getLast?_eq_none_iff.mp hlast) (List.cons_ne_nil d u)
      · rfl

theorem overwrite_append (st : Option SignalMatch) (l1 l2 : List SignalMatch) :
    overwrite st (l1 ++ l2) = overwrite (overwrite st l1) l2 := by
  unfold overwrite
  exact List.foldl_append ..

theorem scanCands_append (st : Option SignalMatch) (l1 l2 : List SignalMatch) :
    scanCands st (l1 ++ l2) =
      match scanCands st l1 with
      | .error e => .error e
      | .ok st2 => scanCands st2 l2 := by
  induction l1 generalizing st with
  | nil => rfl
  | cons c t ih =>
    cases st with
    | some m => rfl
    | none =>
      have h1 : scanCands none ((c :: t) ++ l2) = scanCands (some c) (t ++ l2) := rfl
      rw [h1, ih]
      rfl

theorem sigMatches_cons (item_name iface_name path : String) (s : Signal)
    (rest : List Signal) :
    sigMatches item_name iface_name path (s :: rest) =
      if strContains item_name s.name then
        ⟨iface_name, s.name, path⟩ :: sigMatches item_name iface_name path rest
      else
        sigMatches item_name iface_name path rest := by
  unfold sigMatches
  rw [List.filter_cons]
  split <;> simp

theorem sigHintMatches_cons (hint iface_name path : String) (s : Signal)
    (rest : List Signal) :
    sigHintMatches hint iface_name path (s :: rest) =
      if s.name == hint then
        ⟨iface_name, s.name, path⟩ :: sigHintMatches hint iface_name path rest
      else
        sigHintMatches hint iface_name path rest := by
  unfold sigHintMatches
  rw [List.filter_cons]
  split <;> simp

theorem foldSignals_no_hint (ihint : Option String) (item_name iface_name path : String)
    (st : Option SignalMatch) (sigs : List Signal) :
    foldSignals ⟨ihint, none⟩ item_name iface_name path st sigs =
      scanCands st (sigMatches item_name iface_name path sigs) := by
  induction sigs generalizing st with
  | nil => rfl
  | cons s rest ih =>
    rw [sigMatches_cons]
    by_cases hc : strContains item_name s.name
    · cases st with
      | some m => simp [foldSignals, hc, scanCands]
      | none => simp [foldSignals, hc, scanCands, ih]
    · simp [foldSignals, hc, ih]

theorem foldInterfaces_no_hint (ihint : Option String) (item_name path : String)
    (st : Option SignalMatch) (ifaces : List Interface) :
    foldInterfaces ⟨ihint, none⟩ item_name path st ifaces =
      scanCands st ((ifaces.filter (admissible ⟨ihint, none⟩)).flatMap
        (fun iface => sigMatches item_name iface.name path iface.signals)) := by
  induction ifaces generalizing st with
  | nil => rfl
  | cons iface rest ih =>
    rw [List.filter_cons]
    by_cases ha : admissible ⟨ihint, none⟩ iface
    · simp only [ha, if_true, List.flatMap_cons, scanCands_append]
      rw [show foldInterfaces ⟨ihint, none⟩ item_name path st (iface :: rest) =
        match foldSignals ⟨ihint, none⟩ item_name iface.name path st iface.signals with
        | .error e => .error e
        | .ok st2 => foldInterfaces ⟨ihint, none⟩ item_name path st2 rest from by
          simp [foldInterfaces, ha]]
      rw [foldSignals_no_hint]
      cases scanCands st (sigMatches item_name iface.name path iface.signals) with
      | error e => rfl
      | ok st2 => exact ih st2
    · simp only [ha, if_false, Bool.false_eq_true]
      rw [show foldInterfaces ⟨ihint, none⟩ item_name path st (iface :: rest) =
        foldInterfaces ⟨ihint, none⟩ item_name path st rest from by
          simp [foldInterfaces, ha]]
      exact ih st

theorem foldDocs_no_hint (ihint : Option String) (item_name : String)
    (st : Option SignalMatch) (docs : List (String × Node)) :
    foldDocs ⟨ihint, none⟩ item_name st docs =
      scanCands st (allMatches ⟨ihint, none⟩ item_name docs) := by
  induction docs generalizing st with
  | nil => rfl
  | cons d rest ih =>
    rcases d with ⟨path, node⟩
    rw [show allMatches ⟨ihint, none⟩ item_name ((path, node) :: rest) =
      docMatches ⟨ihint, none⟩ item_name (path, node) ++
        allMatches ⟨ihint, none⟩ item_name rest from List.flatMap_cons ..]
    rw [scanCands_append]
    rw [show foldDocs ⟨ihint, none⟩ item_name st ((path, node) :: rest) =
      match foldInterfaces ⟨ihint, none⟩ item_name path st node.interfaces with
      | .error e => .error e
      | .ok st2 => foldDocs ⟨ihint, none⟩ item_name st2 rest from rfl]
    rw [foldInterfaces_no_hint]
    rw [show (node.interfaces.filter (admissible ⟨ihint, none⟩)).flatMap
      (fun iface => sigMatches item_name iface.name path iface.signals) =
      docMatches ⟨ihint, none⟩ item_name (path, node) from rfl]
    cases scanCands st (docMatches ⟨ihint, none⟩ item_name (path, node)) with
    | error e => rfl
    | ok st2 => exact ih st2

theorem validate_no_hint (ihint : Option String) (item_name : String)
    (docs : List (String × Node)) :
    validate ⟨ihint, none⟩ item_name docs =
      match allMatches ⟨ihint, none⟩ item_name docs with
      | [] => .error (.NotFound item_name)
      | [m] => .ok m
      | _ :: _ :: _ => .error .Ambiguous := by
  unfold validate
  rw [foldDocs_no_hint]
  rcases allMatches ⟨ihint, none⟩ item_name docs with _ | ⟨m, _ | ⟨m2, r⟩⟩ <;> rfl

theorem foldSignals_hint (ihint : Option String) (hint item_name iface_name path : String)
    (st : Option SignalMatch) (sigs : List Signal) :
    foldSignals ⟨ihint, some hint⟩ item_name iface_name path st sigs =
      .ok (overwrite st (sigHintMatches hint iface_name path sigs)) := by
  induction sigs generalizing st with
  | nil => rfl
  | cons s rest ih =>
    rw [sigHintMatches_cons]
    by_cases hc : s.name == hint
    · simp only [hc, if_true]
      have h1 : foldSignals ⟨ihint, some hint⟩ item_name iface_name path st (s :: rest) =
          foldSignals ⟨ihint, some hint⟩ item_name iface_name path
            (some ⟨iface_name, s.name, path⟩) rest := by
        simp [foldSignals, hc]
      rw [h1, ih]
      rfl
    · simp only [hc, if_false, Bool.false_eq_true]
      have h1 : foldSignals ⟨ihint, some hint⟩ item_name iface_name path st (s :: rest) =
          foldSignals ⟨ihint, some hint⟩ item_name iface_name path st rest := by
        simp [foldSignals, hc]
      rw [h1, ih]

theorem foldInterfaces_hint (ihint : Option String) (hint item_name path : String)
    (st : Option SignalMatch) (ifaces : List Interface) :
    foldInterfaces ⟨ihint, some hint⟩ item_name path st ifaces =
      .ok (overwrite st ((ifaces.filter (admissible ⟨ihint, some hint⟩)).flatMap
        (fun iface => sigHintMatches hint iface.name path iface.signals))) := by
  induction ifaces generalizing st with
  | nil => rfl
  | cons iface rest ih =>
    rw [List.filter_cons]
    by_cases ha : admissible ⟨ihint, some hint⟩ iface
    · simp only [ha, if_true, List.flatMap_cons, overwrite_append]
      rw [show foldInterfaces ⟨ihint, some hint⟩ item_name path st (iface :: rest) =
        match foldSignals ⟨ihint, some hint⟩ item_name iface.name path st iface.signals with
        | .error e => .error e
        | .ok st2 => foldInterfaces ⟨ihint, some hint⟩ item_name path st2 rest from by
          simp [foldInterfaces, ha]]
      rw [foldSignals_hint]
      exact ih _
    · simp only [ha, if_false, Bool.false_eq_true]
      rw [show foldInterfaces ⟨ihint, some hint⟩ item_name path st (iface :: rest) =
        foldInterfaces ⟨ihint, some hint⟩ item_name path st rest from by
          simp [foldInterfaces, ha]]
      exact ih st

theorem foldDocs_hint (ihint : Option String) (hint item_name : String)
    (st : Option SignalMatch) (docs : List (String × Node)) :
    foldDocs ⟨ihint, some hint⟩ item_name st docs =
      .ok (overwrite st (allHintMatches ⟨ihint, some hint⟩ hint docs)) := by
  induction docs generalizing st with
  | nil => rfl
  | cons d rest ih =>
    rcases d with ⟨path, node⟩
    rw [show allHintMatches ⟨ihint, some hint⟩ hint ((path, node) :: rest) =
      docHintMatches ⟨ihint, some hint⟩ hint (path, node) ++
        allHintMatches ⟨ihint, some hint⟩ hint rest from List.flatMap_cons ..]
    rw [overwrite_append]
    rw [show foldDocs ⟨ihint, some hint⟩ item_name st ((path, node) :: rest) =
      match foldInterfaces ⟨ihint, some hint⟩ item_name path st node.interfaces with
      | .error e => .error e
      | .ok st2 => foldDocs ⟨ihint, some hint⟩ item_name st2 rest from rfl]
    rw [foldInterfaces_hint]
    exact ih _

theorem validate_hint (ihint : Option String) (hint item_name : String)
    (docs : List (String × Node)) :
    validate ⟨ihint, some hint⟩ item_name docs =
      match (allHintMatches ⟨ihint, some hint⟩ hint docs).getLast? with
      | some m => .ok m
      | none => .error (.NotFound hint) := by
  unfold validate
  rw [foldDocs_hint, overwrite_eq_getLast?]
  rcases (allHintMatches ⟨ihint, some hint⟩ hint docs).getLast? with _ | m <;> rfl

/-! ## Concrete example documents (from the spec's testable properties and
the repository's doc examples) -/

/-- Signal `RemoveNode` with args `(name: s, path: o)` (spec section 8;
macros lib.rs doc examples). -/
def removeNodeSignal : Signal :=
  ⟨"RemoveNode", [⟨some "name", "s", none⟩, ⟨some "path", "o", none⟩]⟩

/-- A document declaring interface `org.example.Node` with signal
`RemoveNode`. -/
def exampleNodeDoc : Node :=
  ⟨[⟨"org.example.Node", [removeNodeSignal], [], []⟩]⟩

/-- A second document declaring a differently-named interface with a
signal literally named `RemoveNode`. -/
def exampleOtherDoc : Node :=
  ⟨[⟨"org.example.Other", [⟨"RemoveNode", [⟨some "node", "o", none⟩]⟩], [], []⟩]⟩

/-- A method with args `(app_name: s, direction in)` and
`(id: u, direction out)` (spec section 8). -/
def registerMethod : Method :=
  ⟨"RegisterApplication", [⟨some "app_name", "s", some "in"⟩, ⟨some "id", "u", some "out"⟩]⟩

/-- A method whose args carry no direction attribute at all. -/
def bareMethod : Method :=
  ⟨"BareCall", [⟨some "data", "s", none⟩]⟩

/-- A document with methods for the method extractors. -/
def exampleMethodDoc : Node :=
  ⟨[⟨"org.example.App", [], [registerMethod, bareMethod], []⟩]⟩

/-- A document with duplicate interface names and duplicate member names,
for the first-match behaviour of the extractors. -/
def dupDoc : Node :=
  ⟨[⟨"org.example.Dup",
      [⟨"Sig", [⟨some "x", "s", none⟩]⟩, ⟨"Sig", [⟨some "y", "u", none⟩]⟩],
      [⟨"Call", [⟨some "a", "i", some "out"⟩]⟩, ⟨"Call", [⟨some "b", "d", some "out"⟩]⟩],
      [⟨"InUse", "b"⟩, ⟨"InUse", "t"⟩]⟩,
    ⟨"org.example.Dup", [⟨"Sig", [⟨some "z", "o", none⟩]⟩], [], []⟩]⟩

/-! ## Claim theorems -/

/-- C1: the Signature Equivalence Checker decides the spec's six cases as
stated: a single optional top-level struct wrapper is tolerated
(`s`/`(s)`, `ii`/`(ii)`, `a{sv}`/`(a{sv})`) and nothing else is
(`ii`/`(i)(i)`, `(ii)`/`(i)(i)`, `i`/`u`). -/
theorem signatures_are_eq_spec_cases :
    signatures_are_eq "s" "(s)" = true ∧
    signatures_are_eq "ii" "(ii)" = true ∧
    signatures_are_eq "a{sv}" "(a{sv})" = true ∧
    signatures_are_eq "ii" "(i)(i)" = false ∧
    signatures_are_eq "(ii)" "(i)(i)" = false ∧
    signatures_are_eq "i" "u" = false := by
  refine ⟨rfl, rfl, rfl, rfl, rfl, rfl⟩

/-- C2: signature equivalence is reflexive — `equivalent(s, s)` holds for
every string `s` — and symmetric — `equivalent(a, b)` always equals
`equivalent(b, a)`. -/
theorem signatures_are_eq_refl_symm :
    (∀ s : String, signatures_are_eq s s = true) ∧
    (∀ a b : String, signatures_are_eq a b = signatures_are_eq b a) := by
  constructor
  · intro s
    simp [signatures_are_eq]
  · intro a b
    unfold signatures_are_eq
    by_cases h : a = b
    · subst h
      rfl
    · have h1 : (a == b) = false := by
        simp [h]
      have h2 : (b == a) = false := by
        simp [Ne.symm h]
      rw [h1, h2]
      simp only [Bool.false_eq_true, if_false]
      cases ha : tokenize a with
      | none =>
        cases hb : tokenize b with
        | none => rfl
        | some tb => rfl
      | some ta =>
        cases hb : tokenize b with
        | none => rfl
        | some tb =>
          have e : (ta == tb) = (tb == ta) := by
            by_cases h3 : ta = tb
            · subst h3
              rfl
            · have e1 : (ta == tb) = false := by
                simp [h3]
              have e2 : (tb == ta) = false := by
                simp [Ne.symm h3]
              rw [e1, e2]
          show (wrapEquals ta tb || wrapEquals tb ta || (ta == tb)) =
            (wrapEquals tb ta || wrapEquals ta tb || (tb == ta))
          rw [e, Bool.or_comm (wrapEquals ta tb) (wrapEquals tb ta)]

/-- C3 counterexample: two documents both declare a signal named
`RemoveNode` under admissible interfaces and the member hint
`RemoveNode` is supplied; resolution succeeds (returning the match from
the document iterated last) instead of failing with the ambiguity
error. -/
theorem validate_hint_two_matches_not_ambiguous :
    (allHintMatches ⟨none, some "RemoveNode"⟩ "RemoveNode"
      [("a.xml", exampleNodeDoc), ("b.xml", exampleOtherDoc)]).length = 2 ∧
    validate ⟨none, some "RemoveNode"⟩ "RemoveNodeSignal"
      [("a.xml", exampleNodeDoc), ("b.xml", exampleOtherDoc)] =
      .ok ⟨"org.example.Other", "RemoveNode", "b.xml"⟩ := by
  exact ⟨rfl, rfl⟩

/-- C3 (amended): when a member hint is supplied, resolution never fails
with the ambiguity error; every hint-driven match silently overwrites the
previous one, so the result is the last hint-driven match in iteration
order (or the not-found error naming the hint when there is none). -/
theorem validate_hint_silently_takes_last (ihint : Option String)
    (hint item_name : String) (docs : List (String × Node)) :
    validate ⟨ihint, some hint⟩ item_name docs ≠ .error .Ambiguous ∧
    validate ⟨ihint, some hint⟩ item_name docs =
      match (allHintMatches ⟨ihint, some hint⟩ hint docs).getLast? with
      | some m => .ok m
      | none => .error (.NotFound hint) := by
  refine ⟨?_, validate_hint ihint hint item_name docs⟩
  rw [validate_hint ihint hint item_name docs]
  rcases (allHintMatches ⟨ihint, some hint⟩ hint docs).getLast? with _ | m <;> simp

/-- C4: with no member hint, two or more substring matches among the
interfaces retained by the interface hint are always the ambiguity error
(no tie-break), and a single retained match is returned as the unique
result. -/
theorem validate_no_hint_ambiguity (ihint : Option String) (item_name : String)
    (docs : List (String × Node)) :
    (2 ≤ (allMatches ⟨ihint, none⟩ item_name docs).length →
      validate ⟨ihint, none⟩ item_name docs = .error .Ambiguous) ∧
    (∀ m, allMatches ⟨ihint, none⟩ item_name docs = [m] →
      validate ⟨ihint, none⟩ item_name docs = .ok m) := by
  constructor
  · intro h
    rw [validate_no_hint]
    rcases hl : allMatches ⟨ihint, none⟩ item_name docs with _ | ⟨m, _ | ⟨m2, r⟩⟩
    · rw [hl] at h
      simp at h
    · rw [hl] at h
      simp at h
    · rfl
  · intro m hm
    rw [validate_no_hint, hm]

/-- C4 witness: the two-document `RemoveNode` scenario — no hints is
ambiguous, the interface hint `org.example.Node` retains exactly one
match and yields it. -/
theorem validate_no_hint_ambiguity_witness :
    validate ⟨none, none⟩ "RemoveNodeSignal"
      [("a.xml", exampleNodeDoc), ("b.xml", exampleOtherDoc)] = .error .Ambiguous ∧
    validate ⟨some "org.example.Node", none⟩ "RemoveNodeSignal"
      [("a.xml", exampleNodeDoc), ("b.xml", exampleOtherDoc)] =
      .ok ⟨"org.example.Node", "RemoveNode", "a.xml"⟩ := by
  constructor
  · exact (validate_no_hint_ambiguity none "RemoveNodeSignal"
      [("a.xml", exampleNodeDoc), ("b.xml", exampleOtherDoc)]).1 (by decide)
  · exact (validate_no_hint_ambiguity (some "org.example.Node") "RemoveNodeSignal"
      [("a.xml", exampleNodeDoc), ("b.xml", exampleOtherDoc)]).2
      ⟨"org.example.Node", "RemoveNode", "a.xml"⟩ (by decide)

/-- C8 counterexample: the same two documents presented in the two
iteration orders of the underlying hash map give different resolution
outcomes when a member hint matches in both documents, so the outcome is
not determined by the document collection alone. -/
theorem validate_order_dependent :
    ([("a.xml", exampleNodeDoc), ("b.xml", exampleOtherDoc)] : List (String × Node)).Perm
      [("b.xml", exampleOtherDoc), ("a.xml", exampleNodeDoc)] ∧
    validate ⟨none, some "RemoveNode"⟩ "RemoveNodeSignal"
      [("a.xml", exampleNodeDoc), ("b.xml", exampleOtherDoc)] =
      .ok ⟨"org.example.Other", "RemoveNode", "b.xml"⟩ ∧
    validate ⟨none, some "RemoveNode"⟩ "RemoveNodeSignal"
      [("b.xml", exampleOtherDoc), ("a.xml", exampleNodeDoc)] =
      .ok ⟨"org.example.Node", "RemoveNode", "a.xml"⟩ ∧
    validate ⟨none, some "RemoveNode"⟩ "RemoveNodeSignal"
      [("a.xml", exampleNodeDoc), ("b.xml", exampleOtherDoc)] ≠
    validate ⟨none, some "RemoveNode"⟩ "RemoveNodeSignal"
      [("b.xml", exampleOtherDoc), ("a.xml", exampleNodeDoc)] := by
  refine ⟨List.Perm.swap _ _ _, rfl, rfl, ?_⟩
  intro hcontra
  have h2 : (Except.ok ⟨"org.example.Other", "RemoveNode", "b.xml"⟩ :
      Except ResolveError SignalMatch) =
      .ok ⟨"org.example.Node", "RemoveNode", "a.xml"⟩ := hcontra
  simp at h2

/-- C8 (amended): resolution is a pure function of the ordered document
list, and without a member hint its outcome does not depend on document
order at all — any permutation of the documents yields the same outcome;
with a member hint matching in several documents, the chosen match
depends on the iteration order of the document map (see the
counterexample). -/
theorem validate_no_hint_perm_invariant (ihint : Option String) (item_name : String)
    (docs docs2 : List (String × Node)) (h : docs.Perm docs2) :
    validate ⟨ihint, none⟩ item_name docs = validate ⟨ihint, none⟩ item_name docs2 := by
  have hp : (allMatches ⟨ihint, none⟩ item_name docs).Perm
      (allMatches ⟨ihint, none⟩ item_name docs2) :=
    h.flatMap_right _
  rw [validate_no_hint, validate_no_hint]
  rcases hl : allMatches ⟨ihint, none⟩ item_name docs with _ | ⟨m, _ | ⟨m2, r⟩⟩
  · rw [hl] at hp
    rw [(List.perm_nil.mp hp.symm : allMatches ⟨ihint, none⟩ item_name docs2 = [])]
  · rw [hl] at hp
    rw [(List.perm_singleton.mp hp.symm : allMatches ⟨ihint, none⟩ item_name docs2 = [m])]
  · rw [hl] at hp
    have hlen := hp.length_eq
    rcases hl2 : allMatches ⟨ihint, none⟩ item_name docs2 with _ | ⟨a, _ | ⟨b, t⟩⟩
    · rw [hl2] at hlen
      simp at hlen
    · rw [hl2] at hlen
      simp at hlen
    · rfl

/-- C8 amended witness: for a hint-free resolution the two iteration
orders of the two-document collection agree. -/
theorem validate_no_hint_perm_invariant_witness :
    validate ⟨none, none⟩ "RemoveNodeSignal"
      [("a.xml", exampleNodeDoc), ("b.xml", exampleOtherDoc)] =
    validate ⟨none, none⟩ "RemoveNodeSignal"
      [("b.xml", exampleOtherDoc), ("a.xml", exampleNodeDoc)] :=
  validate_no_hint_perm_invariant none "RemoveNodeSignal"
    [("a.xml", exampleNodeDoc), ("b.xml", exampleOtherDoc)]
    [("b.xml", exampleOtherDoc), ("a.xml", exampleNodeDoc)]
    (List.Perm.swap _ _ _)

/-- `find?` over a list decomposed at its first satisfying element. -/
theorem find?_first {α : Type} (p : α → Bool) (pre post : List α) (a : α)
    (hpre : ∀ x ∈ pre, p x = false) (ha : p a = true) :
    (pre ++ a :: post).find? p = some a := by
  induction pre with
  | nil =>
    simpa [List.find?] using List.find?_cons_of_pos post ha
  | cons x xs ih =>
    have hx : p x = false := hpre x (List.mem_cons_self x xs)
    rw [List.cons_append, List.find?_cons_of_neg _ (by simp [hx])]
    exact ih (fun y hy => hpre y (List.mem_cons_of_mem x hy))

/-- Helper: the signal extractor on a found interface and signal, with no
argument name, concatenates the arg types. -/
theorem signal_body_of_found (node : Node) (iname mname : String) (iface : Interface)
    (sig : Signal) (h1 : node.interfaces.find? (fun i => i.name == iname) = some iface)
    (h2 : iface.signals.find? (fun s => s.name == mname) = some sig) :
    get_signal_body_type node iname mname none =
      .ok (String.join (sig.args.map (fun a => a.ty))) := by
  unfold get_signal_body_type
  simp only [h1, h2]

/-- Helper: the method return-type extractor on a found interface and
method, with no argument name, concatenates the `out`-direction arg
types. -/
theorem method_out_of_found (node : Node) (iname mname : String) (iface : Interface)
    (method : Method) (h1 : node.interfaces.find? (fun i => i.name == iname) = some iface)
    (h2 : iface.methods.find? (fun m => m.name == mname) = some method) :
    get_method_return_type node iname mname none =
      .ok (String.join ((method.args.filter (fun a => a.direction == some "out")).map
        (fun a => a.ty))) := by
  unfold get_method_return_type
  simp only [h1, h2]

/-- Helper: the method argument-type extractor on a found interface and
method, with no argument name, concatenates the `in`-direction arg
types. -/
theorem method_in_of_found (node : Node) (iname mname : String) (iface : Interface)
    (method : Method) (h1 : node.interfaces.find? (fun i => i.name == iname) = some iface)
    (h2 : iface.methods.find? (fun m => m.name == mname) = some method) :
    get_method_args_type node iname mname none =
      .ok (String.join ((method.args.filter (fun a => a.direction == some "in")).map
        (fun a => a.ty))) := by
  unfold get_method_args_type
  simp only [h1, h2]

/-- Helper: the property extractor on a found interface and property
returns the property's type string. -/
theorem property_of_found (node : Node) (iname mname : String) (iface : Interface)
    (property : Property)
    (h1 : node.interfaces.find? (fun i => i.name == iname) = some iface)
    (h2 : iface.properties.find? (fun q => q.name == mname) = some property) :
    get_property_type node iname mname = .ok property.ty := by
  unfold get_property_type
  simp only [h1, h2]

/-- C5: a signal's body signature with no argument name is the plain
concatenation of its args' type strings in declared order, with no added
wrapping; and the `RemoveNodeSignal` example resolves with no hints to
interface `org.example.Node`, member `RemoveNode`, with extracted
signature `so`. -/
theorem get_signal_body_type_concat :
    (∀ (node : Node) (iname mname : String) (iface : Interface) (sig : Signal),
      node.interfaces.find? (fun i => i.name == iname) = some iface →
      iface.signals.find? (fun s => s.name == mname) = some sig →
      get_signal_body_type node iname mname none =
        .ok (String.join (sig.args.map (fun a => a.ty)))) ∧
    validate ⟨none, none⟩ "RemoveNodeSignal" [("doc.xml", exampleNodeDoc)] =
      .ok ⟨"org.example.Node", "RemoveNode", "doc.xml"⟩ ∧
    get_signal_body_type exampleNodeDoc "org.example.Node" "RemoveNode" none = .ok "so" :=
  ⟨fun node iname mname iface sig h1 h2 =>
    signal_body_of_found node iname mname iface sig h1 h2, rfl, rfl⟩

/-- C5 witness: the general concatenation statement applied to the
`RemoveNode` example document. -/
theorem get_signal_body_type_concat_witness :
    get_signal_body_type exampleNodeDoc "org.example.Node" "RemoveNode" none =
      .ok (String.join (removeNodeSignal.args.map (fun a => a.ty))) :=
  get_signal_body_type_concat.1 exampleNodeDoc "org.example.Node" "RemoveNode"
    ⟨"org.example.Node", [removeNodeSignal], [], []⟩ removeNodeSignal rfl rfl

/-- C6: with no argument name, the method return-type extractor
concatenates, in declared order, exactly the type strings of the args
with direction `out`, and the argument-type extractor those with
direction `in`; in particular `(app_name: s in, id: u out)` gives out
signature `u` and in signature `s`. -/
theorem get_method_types_direction_concat :
    (∀ (node : Node) (iname mname : String) (iface : Interface) (method : Method),
      node.interfaces.find? (fun i => i.name == iname) = some iface →
      iface.methods.find? (fun m => m.name == mname) = some method →
      get_method_return_type node iname mname none =
        .ok (String.join ((method.args.filter (fun a => a.direction == some "out")).map
          (fun a => a.ty))) ∧
      get_method_args_type node iname mname none =
        .ok (String.join ((method.args.filter (fun a => a.direction == some "in")).map
          (fun a => a.ty)))) ∧
    get_method_return_type exampleMethodDoc "org.example.App" "RegisterApplication" none =
      .ok "u" ∧
    get_method_args_type exampleMethodDoc "org.example.App" "RegisterApplication" none =
      .ok "s" :=
  ⟨fun node iname mname iface method h1 h2 =>
    ⟨method_out_of_found node iname mname iface method h1 h2,
      method_in_of_found node iname mname iface method h1 h2⟩, rfl, rfl⟩

/-- C6 witness: the general direction-filter statement applied to the
`RegisterApplication` example method. -/
theorem get_method_types_direction_concat_witness :
    get_method_return_type exampleMethodDoc "org.example.App" "RegisterApplication" none =
      .ok (String.join ((registerMethod.args.filter
        (fun a => a.direction == some "out")).map (fun a => a.ty))) ∧
    get_method_args_type exampleMethodDoc "org.example.App" "RegisterApplication" none =
      .ok (String.join ((registerMethod.args.filter
        (fun a => a.direction == some "in")).map (fun a => a.ty))) :=
  get_method_types_direction_concat.1 exampleMethodDoc "org.example.App"
    "RegisterApplication" ⟨"org.example.App", [], [registerMethod, bareMethod], []⟩
    registerMethod rfl rfl

/-- C7: an explicit argument name overrides the direction filter in both
method extractors — the named arg's type string is returned whatever its
direction — and a name carried by no arg is the argument-not-found
error. -/
theorem get_method_types_arg_name_overrides :
    (∀ (node : Node) (iname mname an : String) (iface : Interface) (method : Method)
      (a : Arg),
      node.interfaces.find? (fun i => i.name == iname) = some iface →
      iface.methods.find? (fun m => m.name == mname) = some method →
      method.args.find? (fun x => x.name == some an) = some a →
      get_method_return_type node iname mname (some an) = .ok a.ty ∧
      get_method_args_type node iname mname (some an) = .ok a.ty) ∧
    (∀ (node : Node) (iname mname an : String) (iface : Interface) (method : Method),
      node.interfaces.find? (fun i => i.name == iname) = some iface →
      iface.methods.find? (fun m => m.name == mname) = some method →
      method.args.find? (fun x => x.name == some an) = none →
      get_method_return_type node iname mname (some an) =
        .error (.MissingParameter "no matching argument found") ∧
      get_method_args_type node iname mname (some an) =
        .error (.MissingParameter "no matching argument found")) := by
  constructor
  · intro node iname mname an iface method a h1 h2 h3
    constructor
    · unfold get_method_return_type
      simp only [h1, h2, h3]
    · unfold get_method_args_type
      simp only [h1, h2, h3]
  · intro node iname mname an iface method h1 h2 h3
    constructor
    · unfold get_method_return_type
      simp only [h1, h2, h3]
    · unfold get_method_args_type
      simp only [h1, h2, h3]

/-- C7 witness: requesting the `out`-direction arg `id` through the
argument-type extractor (whose direction filter is `in`) still returns
its type `u`, and a missing name is the argument-not-found error. -/
theorem get_method_types_arg_name_overrides_witness :
    (get_method_return_type exampleMethodDoc "org.example.App" "RegisterApplication"
      (some "id") = .ok "u" ∧
    get_method_args_type exampleMethodDoc "org.example.App" "RegisterApplication"
      (some "id") = .ok "u") ∧
    (get_method_return_type exampleMethodDoc "org.example.App" "RegisterApplication"
      (some "nonexistent") = .error (.MissingParameter "no matching argument found") ∧
    get_method_args_type exampleMethodDoc "org.example.App" "RegisterApplication"
      (some "nonexistent") = .error (.MissingParameter "no matching argument found")) :=
  ⟨get_method_types_arg_name_overrides.1 exampleMethodDoc "org.example.App"
      "RegisterApplication" "id" ⟨"org.example.App", [], [registerMethod, bareMethod], []⟩
      registerMethod ⟨some "id", "u", some "out"⟩ rfl rfl rfl,
    get_method_types_arg_name_overrides.2 exampleMethodDoc "org.example.App"
      "RegisterApplication" "nonexistent"
      ⟨"org.example.App", [], [registerMethod, bareMethod], []⟩
      registerMethod rfl rfl rfl⟩

/-- C9: with no argument name, the method extractors never fail because
of directions: when no arg carries the requested direction (including
args with no direction attribute at all, which are excluded from both
concatenations), the result is success with the empty signature. -/
theorem get_method_types_empty_direction_ok :
    ∀ (node : Node) (iname mname : String) (iface : Interface) (method : Method),
      node.interfaces.find? (fun i => i.name == iname) = some iface →
      iface.methods.find? (fun m => m.name == mname) = some method →
      ((method.args.filter (fun a => a.direction == some "out")) = [] →
        get_method_return_type node iname mname none = .ok "") ∧
      ((method.args.filter (fun a => a.direction == some "in")) = [] →
        get_method_args_type node iname mname none = .ok "") := by
  intro node iname mname iface method h1 h2
  constructor
  · intro hout
    have h := method_out_of_found node iname mname iface method h1 h2
    rw [hout] at h
    simpa [String.join] using h
  · intro hin
    have h := method_in_of_found node iname mname iface method h1 h2
    rw [hin] at h
    simpa [String.join] using h

/-- C9 witness: the `BareCall` method's single arg has no direction
attribute, so both extractors succeed with the empty signature. -/
theorem get_method_types_empty_direction_ok_witness :
    get_method_return_type exampleMethodDoc "org.example.App" "BareCall" none = .ok "" ∧
    get_method_args_type exampleMethodDoc "org.example.App" "BareCall" none = .ok "" :=
  ⟨(get_method_types_empty_direction_ok exampleMethodDoc "org.example.App" "BareCall"
      ⟨"org.example.App", [], [registerMethod, bareMethod], []⟩ bareMethod rfl rfl).1 rfl,
    (get_method_types_empty_direction_ok exampleMethodDoc "org.example.App" "BareCall"
      ⟨"org.example.App", [], [registerMethod, bareMethod], []⟩ bareMethod rfl rfl).2 rfl⟩

/-- C10: the extractors use the first matching declaration in document
order — duplicated interface names or member names are never an error:
whenever the interface list splits as earlier non-matches, a match, and
an arbitrary remainder, and likewise the member list, extraction
succeeds from that first match, whatever duplicates follow. -/
theorem extractors_use_first_match :
    ∀ (node : Node) (iname mname : String) (pre post : List Interface)
      (iface : Interface),
      node.interfaces = pre ++ iface :: post →
      (∀ j ∈ pre, (j.name == iname) = false) →
      (iface.name == iname) = true →
      (∀ (spre spost : List Signal) (sig : Signal),
        iface.signals = spre ++ sig :: spost →
        (∀ s ∈ spre, (s.name == mname) = false) →
        (sig.name == mname) = true →
        get_signal_body_type node iname mname none =
          .ok (String.join (sig.args.map (fun a => a.ty)))) ∧
      (∀ (ppre ppost : List Property) (property : Property),
        iface.properties = ppre ++ property :: ppost →
        (∀ q ∈ ppre, (q.name == mname) = false) →
        (property.name == mname) = true →
        get_property_type node iname mname = .ok property.ty) ∧
      (∀ (mpre mpost : List Method) (method : Method),
        iface.methods = mpre ++ method :: mpost →
        (∀ q ∈ mpre, (q.name == mname) = false) →
        (method.name == mname) = true →
        get_method_return_type node iname mname none =
          .ok (String.join ((method.args.filter
            (fun a => a.direction == some "out")).map (fun a => a.ty)))) := by
  intro node iname mname pre post iface hn hpre hi
  have hfi : node.interfaces.find? (fun i => i.name == iname) = some iface := by
    rw [hn]
    exact find?_first _ pre post iface hpre hi
  refine ⟨?_, ?_, ?_⟩
  · intro spre spost sig hs hspre hsig
    have hfs : iface.signals.find? (fun s => s.name == mname) = some sig := by
      rw [hs]
      exact find?_first _ spre spost sig hspre hsig
    exact signal_body_of_found node iname mname iface sig hfi hfs
  · intro ppre ppost property hp hppre hprop
    have hfp : iface.properties.find? (fun q => q.name == mname) = some property := by
      rw [hp]
      exact find?_first _ ppre ppost property hppre hprop
    exact property_of_found node iname mname iface property hfi hfp
  · intro mpre mpost method hm hmpre hmeth
    have hfm : iface.methods.find? (fun q => q.name == mname) = some method := by
      rw [hm]
      exact find?_first _ mpre mpost method hmpre hmeth
    exact method_out_of_found node iname mname iface method hfi hfm

/-- C10 witness: a document with two interfaces named `org.example.Dup`,
the first of which duplicates its signal, method and property names;
all three extractors succeed with the first declaration's data. -/
theorem extractors_use_first_match_witness :
    get_signal_body_type dupDoc "org.example.Dup" "Sig" none = .ok "s" ∧
    get_property_type dupDoc "org.example.Dup" "InUse" = .ok "b" ∧
    get_method_return_type dupDoc "org.example.Dup" "Call" none = .ok "i" := by
  have h := extractors_use_first_match dupDoc "org.example.Dup" "Sig" []
    [⟨"org.example.Dup", [⟨"Sig", [⟨some "z", "o", none⟩]⟩], [], []⟩]
    ⟨"org.example.Dup",
      [⟨"Sig", [⟨some "x", "s", none⟩]⟩, ⟨"Sig", [⟨some "y", "u", none⟩]⟩],
      [⟨"Call", [⟨some "a", "i", some "out"⟩]⟩, ⟨"Call", [⟨some "b", "d", some "out"⟩]⟩],
      [⟨"InUse", "b"⟩, ⟨"InUse", "t"⟩]⟩
    rfl (by intro j hj; simp at hj) rfl
  have h2 := extractors_use_first_match dupDoc "org.example.Dup" "InUse" []
    [⟨"org.example.Dup", [⟨"Sig", [⟨some "z", "o", none⟩]⟩], [], []⟩]
    ⟨"org.example.Dup",
      [⟨"Sig", [⟨some "x", "s", none⟩]⟩, ⟨"Sig", [⟨some "y", "u", none⟩]⟩],
      [⟨"Call", [⟨some "a", "i", some "out"⟩]⟩, ⟨"Call", [⟨some "b", "d", some "out"⟩]⟩],
      [⟨"InUse", "b"⟩, ⟨"InUse", "t"⟩]⟩
    rfl (by intro j hj; simp at hj) rfl
  have h3 := extractors_use_first_match dupDoc "org.example.Dup" "Call" []
    [⟨"org.example.Dup", [⟨"Sig", [⟨some "z", "o", none⟩]⟩], [], []⟩]
    ⟨"org.example.Dup",
      [⟨"Sig", [⟨some "x", "s", none⟩]⟩, ⟨"Sig", [⟨some "y", "u", none⟩]⟩],
      [⟨"Call", [⟨some "a", "i", some "out"⟩]⟩, ⟨"Call", [⟨some "b", "d", some "out"⟩]⟩],
      [⟨"InUse", "b"⟩, ⟨"InUse", "t"⟩]⟩
    rfl (by intro j hj; simp at hj) rfl
  refine ⟨?_, ?_, ?_⟩
  · have := h.1 [] [⟨"Sig", [⟨some "y", "u", none⟩]⟩] ⟨"Sig", [⟨some "x", "s", none⟩]⟩
      rfl (by intro s hs; simp at hs) rfl
    simpa [String.join] using this
  · exact h2.2.1 [] [⟨"InUse", "t"⟩] ⟨"InUse", "b"⟩ rfl (by intro q hq; simp at hq) rfl
  · have := h3.2.2 [] [⟨"Call", [⟨some "b", "d", some "out"⟩]⟩]
      ⟨"Call", [⟨some "a", "i", some "out"⟩]⟩ rfl (by intro q hq; simp at hq) rfl
    simpa [String.join] using this

end ZbusLockstep
